import Mathlib

/-!
Verification of the safety-checking layer of this repository.

The development shallowly embeds, over `List Char` / `String`:

* the email-redaction step of `SafetyPipeline.check_input`
  (`src/llm_apis/safety/safety_pipeline.py`), including a faithful
  operational model of Python `re.search` / `re.sub` specialised to the
  pattern `\b[A-Za-z0-9._%+-]+@[A-Za-z0-9.-]+\.[A-Z|a-z]{2,}\b`;
* `AWSPIIDetector.redact_pii` (`src/llm_apis/safety/aws_pii_detector.py`):
  sorting detector entities by begin offset in descending order and
  replacing each span `text[start:end]` by `"[" ++ type ++ "]"`;
* `ProductionSafetyPipeline.validate_input`
  (`src/llm_apis/safety/safety_pipeline_multilayer.py`) with its four
  layers (length check, Google-DLP PII layer, Presidio backup PII layer,
  OpenAI moderation layer).  External backends are injected as explicit
  functions returning `Except String _`; a backend raising an exception
  in Python is modelled by the backend function returning `Except.error`.
-/

/-! ## Character classes of the email pattern and of Python `\b`

Python's word characters for `\b` are `[A-Za-z0-9_]` (restricted here to
the ASCII range, which is exact for ASCII text).  The three bracket
expressions of the pattern are translated literally; note that
`[A-Z|a-z]` contains the literal character `'|'`.
-/

/-- Python `\w` / `\b` word character (ASCII). -/
def isWordChar (c : Char) : Bool := c.isAlphanum || c = '_'

/-- Character class `[A-Za-z0-9._%+-]` (the local part of the pattern). -/
def isLocalChar (c : Char) : Bool :=
  c.isAlphanum || c = '.' || c = '_' || c = '%' || c = '+' || c = '-'

/-- Character class `[A-Za-z0-9.-]` (the domain part of the pattern). -/
def isDomainChar (c : Char) : Bool := c.isAlphanum || c = '.' || c = '-'

/-- Character class `[A-Z|a-z]` (the TLD part; it literally contains `'|'`). -/
def isTldChar (c : Char) : Bool := c.isUpper || c.isLower || c = '|'

/-- Length of the maximal prefix of `s` all of whose characters satisfy `p`
(the extent a greedy `[...]+` / `[...]*` consumes). -/
def run (p : Char → Bool) : List Char → Nat
  | [] => 0
  | c :: cs => if p c then run p cs + 1 else 0

/-- Word-character status of position `i` of `s`; positions outside the
string count as non-word (Python `\b` at the ends of the string). -/
def wordAt (s : List Char) (i : Nat) : Bool :=
  match s[i]? with
  | some c => isWordChar c
  | none => false

/-- Greedy search for the TLD: try lengths `kmax, kmax-1, ..., 2` (the `{2,}`
quantifier), requiring a word boundary `\b` after the TLD; `s` starts at the
TLD position and the second argument is the length of the maximal
`[A-Z|a-z]` run there.  Returns the accepted TLD length. -/
def tryTld (s : List Char) : Nat → Option Nat
  | 0 => none
  | 1 => none
  | k + 2 =>
    if wordAt s (k + 1) != wordAt s (k + 2) then some (k + 2)
    else tryTld s (k + 1)

/-- Greedy search for `[A-Za-z0-9.-]+\.[A-Z|a-z]{2,}\b`: try domain lengths
`dmax, ..., 1`, requiring a literal `'.'` after the domain, then the TLD.
`s` starts right after the `'@'`.  Returns the matched length from the
domain start through the end of the TLD. -/
def tryDomain (s : List Char) : Nat → Option Nat
  | 0 => none
  | d + 1 =>
    if s[d + 1]? = some '.' then
      match tryTld (s.drop (d + 2)) (run isTldChar (s.drop (d + 2))) with
      | some k => some (d + 2 + k)
      | none => tryDomain s d
    else tryDomain s d

/-- Attempt of the Python regex engine to match
`\b[A-Za-z0-9._%+-]+@[A-Za-z0-9.-]+\.[A-Z|a-z]{2,}\b` at the start of `s`,
where `prevWord` is the word-character status of the character immediately
before `s` (`false` at the start of the text).  Greedy `+` forces the local
part to be the maximal `[A-Za-z0-9._%+-]` run (it cannot contain the `'@'`),
so only the domain/TLD split backtracks.  Returns the match length. -/
def matchLen (prevWord : Bool) (s : List Char) : Option Nat :=
  let L := run isLocalChar s
  if L = 0 then none
  else if prevWord = wordAt s 0 then none
  else if s[L]? = some '@' then
    match tryDomain (s.drop (L + 1)) (run isDomainChar (s.drop (L + 1))) with
    | some m => some (L + 1 + m)
    | none => none
  else none

/-- The replacement text `"[EMAIL_REDACTED]"` of `SafetyPipeline.check_input`. -/
def tokenChars : List Char := "[EMAIL_REDACTED]".toList

/-- Scanner of Python `re.sub(EMAIL_PATTERN, "[EMAIL_REDACTED]", text)`:
walk the text left to right; at each position either replace a match and
continue right after it, or emit the character.  The word-boundary context
`pw` is the status of the previous character of the original text.  The
fuel argument is an upper bound on the remaining length (each step consumes
at least one character). -/
def subGo : Nat → Bool → List Char → List Char
  | 0, _, _ => []
  | _ + 1, _, [] => []
  | f + 1, pw, c :: cs =>
    match matchLen pw (c :: cs) with
    | some l => tokenChars ++ subGo f (wordAt (c :: cs) (l - 1)) ((c :: cs).drop l)
    | none => c :: subGo f (isWordChar c) cs

/-- `re.sub(EMAIL_PATTERN, "[EMAIL_REDACTED]", text)`. -/
def emailSub (t : List Char) : List Char := subGo t.length false t

/-- Scanner of Python `re.search(EMAIL_PATTERN, text)`: true iff a match
starts at some position. -/
def searchGo : Nat → Bool → List Char → Bool
  | 0, _, _ => false
  | _ + 1, _, [] => false
  | f + 1, pw, c :: cs => (matchLen pw (c :: cs)).isSome || searchGo f (isWordChar c) cs

/-- `re.search(EMAIL_PATTERN, text)` viewed as a Boolean. -/
def emailSearch (t : List Char) : Bool := searchGo t.length false t

/-- `SafetyPipeline.check_input`: redact email addresses, then ask the
moderation backend; a flagged verdict blocks (the simple pipeline never
blocks on PII).  `moderate` is the injected OpenAI moderation call,
returning the backend's `flagged` Boolean or failing. -/
def check_input (moderate : List Char → Except String Bool) (text : List Char) :
    Except String (Bool × List Char × List (String × String)) :=
  let text := if emailSearch text then emailSub text else text
  match moderate text with
  | .error e => .error e
  | .ok flagged =>
    if flagged then .ok (false, text, [("reason", "content_policy_violation")])
    else .ok (true, text, [])

example : emailSub "Contact me at a@b.com".toList = "Contact me at [EMAIL_REDACTED]".toList := by
  decide

example : emailSearch "Contact me at a@b.com".toList = true := by decide

example : emailSub "no emails here".toList = "no emails here".toList := by decide

example : emailSub "a@b.cc1@d.ee".toList = "a@[EMAIL_REDACTED]".toList := by decide

/-! ## `AWSPIIDetector` (`aws_pii_detector.py`)

`detect_pii` and `redact_pii` both start from the entity list returned by
AWS Comprehend's `detect_pii_entities`; that response is passed in
explicitly here.  Text is a `List Char`; Python `text[a:b]` is
`(text.drop a).take (b - a)`. -/

/-- One entity of a `detect_pii_entities` response: `Type`, `Score`,
`BeginOffset`, `EndOffset`. -/
structure ComprehendEntity where
  etype : List Char
  score : ℚ
  beginOffset : Nat
  endOffset : Nat
deriving DecidableEq

/-- Python slice `text[a:b]`. -/
def sliceChars (text : List Char) (a b : Nat) : List Char :=
  (text.drop a).take (b - a)

/-- The placeholder `f"[{entity['Type']}]"`. -/
def entityTag (e : ComprehendEntity) : List Char := '[' :: (e.etype ++ [']'])

/-- One finding of `AWSPIIDetector.detect_pii`. -/
structure AwsFinding where
  ftype : List Char
  score : ℚ
  start : Nat
  stop : Nat
  text : List Char
deriving DecidableEq

/-- Result dictionary of `AWSPIIDetector.detect_pii`. -/
structure AwsDetectionResult where
  has_pii : Bool
  findings : List AwsFinding
deriving DecidableEq

/-- `AWSPIIDetector.detect_pii`, applied to the backend's entity list. -/
def detect_pii_aws (text : List Char) (entities : List ComprehendEntity) :
    AwsDetectionResult :=
  let findings := entities.map fun e =>
    { ftype := e.etype, score := e.score, start := e.beginOffset,
      stop := e.endOffset, text := sliceChars text e.beginOffset e.endOffset }
  { has_pii := findings.length > 0, findings := findings }

/-- Stable insertion into a descending-by-`BeginOffset` list: `e` goes
after every strictly larger offset and before every tie (ties keep the
original relative order, as Python's stable `sorted` does). -/
def insertByOffsetDesc (e : ComprehendEntity) :
    List ComprehendEntity → List ComprehendEntity
  | [] => [e]
  | x :: xs =>
    if e.beginOffset < x.beginOffset then x :: insertByOffsetDesc e xs
    else e :: x :: xs

/-- `sorted(entities, key=lambda x: x['BeginOffset'], reverse=True)`:
stable descending sort by `BeginOffset`. -/
def sortByOffsetDesc : List ComprehendEntity → List ComprehendEntity
  | [] => []
  | e :: es => insertByOffsetDesc e (sortByOffsetDesc es)

/-- The loop body of `AWSPIIDetector.redact_pii`:
`redacted_text = redacted_text[:start] + f"[{Type}]" + redacted_text[end:]`. -/
def replaceSpan (redacted : List Char) (e : ComprehendEntity) : List Char :=
  redacted.take e.beginOffset ++ entityTag e ++ redacted.drop e.endOffset

/-- `AWSPIIDetector.redact_pii`, applied to the backend's entity list:
sort the entities by `BeginOffset` in reverse (descending) order — Python's
`sorted` is stable — then replace each span from the end towards the
start. -/
def redact_pii_aws (text : List Char) (entities : List ComprehendEntity) :
    List Char :=
  let sorted := sortByOffsetDesc entities
  sorted.foldl replaceSpan text

/-- Simultaneous-replacement reference function, written from the spec's
words: walking the entity list in ascending span order, keep the original
text between the spans and put each entity's placeholder in place of its
span `text[start:end]`, all offsets referring to the original text.
`pos` is the current position in the original text. -/
def specFrom (t : List Char) (pos : Nat) : List ComprehendEntity → List Char
  | [] => t.drop pos
  | e :: es =>
    (t.drop pos).take (e.beginOffset - pos) ++ entityTag e ++ specFrom t e.endOffset es

example :
    redact_pii_aws "call 555, mail a@b.c".toList
      [⟨"EMAIL".toList, 1, 15, 20⟩, ⟨"PHONE".toList, 1, 5, 8⟩] =
    "call [PHONE], mail [EMAIL]".toList := by decide

example :
    specFrom "call 555, mail a@b.c".toList 0
      [⟨"PHONE".toList, 1, 5, 8⟩, ⟨"EMAIL".toList, 1, 15, 20⟩] =
    "call [PHONE], mail [EMAIL]".toList := by decide

/-! ## `ProductionSafetyPipeline` (`safety_pipeline_multilayer.py`)

The constructor flags select the active layers; the external services
(Google DLP inspect/deidentify, Presidio analyze/anonymize, OpenAI
moderation) are injected as functions in `Backends`.  A Python exception
raised by a backend call is modelled as `Except.error`; `validate_input`
has no handler, so such an error propagates to the caller.  Scores are
modelled as rationals. -/

/-- Constructor flags of `ProductionSafetyPipeline.__init__`. -/
structure PipelineConfig where
  use_google_dlp : Bool := true
  use_presidio : Bool := true
  use_openai_moderation : Bool := true

/-- One finding of a DLP `inspect_content` response. -/
structure DlpFinding where
  info_type : String
  quote : String
  likelihood : String
deriving DecidableEq

/-- One result of Presidio's `analyzer.analyze`. -/
structure PresidioResult where
  entity_type : String
  start : Nat
  stop : Nat
  score : ℚ
deriving DecidableEq

/-- The first element of an OpenAI `moderations.create` response:
the backend's aggregate `flagged` Boolean and the dump of
`category_scores`. -/
structure OpenAIModerationResult where
  flagged : Bool
  category_scores : List (String × ℚ)
deriving DecidableEq

/-- The injected external services.  `dlp_inspect` takes the configured
info types and `min_likelihood`; `dlp_deidentify` the info types and the
replacement string; `presidio_analyze` the language and an optional
`score_threshold`; `presidio_anonymize` the text and the analyzer
results. -/
structure Backends where
  dlp_inspect : List String → String → String → Except String (List DlpFinding)
  dlp_deidentify : List String → String → String → Except String String
  presidio_analyze : String → Option ℚ → String → Except String (List PresidioResult)
  presidio_anonymize : String → List PresidioResult → Except String String
  openai_moderation : String → Except String OpenAIModerationResult

/-- The info types of `_detect_pii_dlp`. -/
def dlp_info_types_detect : List String :=
  ["EMAIL_ADDRESS", "PHONE_NUMBER", "CREDIT_CARD_NUMBER",
   "US_SOCIAL_SECURITY_NUMBER", "PERSON_NAME", "STREET_ADDRESS",
   "DATE_OF_BIRTH", "IP_ADDRESS", "PASSPORT", "DRIVER_LICENSE_NUMBER"]

/-- The info types of `_redact_pii_dlp`. -/
def dlp_info_types_redact : List String :=
  ["EMAIL_ADDRESS", "PHONE_NUMBER", "CREDIT_CARD_NUMBER",
   "US_SOCIAL_SECURITY_NUMBER", "PERSON_NAME", "STREET_ADDRESS"]

/-- A recorded finding in `details["pii_findings"]`: the DLP layer appends
`{type, quote, likelihood}` dictionaries, the Presidio layer
`{type, text, score}` dictionaries. -/
inductive Finding
  | dlp (ftype quote likelihood : String)
  | presidio (ftype ftext : String) (score : ℚ)
deriving DecidableEq

/-- Detection result `{has_pii, findings}` of the two `_detect_pii_*`
helpers. -/
structure DetectionResult where
  has_pii : Bool
  findings : List Finding
deriving DecidableEq

/-- Python slice `text[a:b]` on a `String`. -/
def sliceStr (text : String) (a b : Nat) : String :=
  String.mk (sliceChars text.toList a b)

/-- `ProductionSafetyPipeline._detect_pii_dlp`. -/
def detect_pii_dlp (B : Backends) (text : String) : Except String DetectionResult := do
  let resp ← B.dlp_inspect dlp_info_types_detect "POSSIBLE" text
  let findings := resp.map fun f => Finding.dlp f.info_type f.quote f.likelihood
  pure { has_pii := findings.length > 0, findings := findings }

/-- `ProductionSafetyPipeline._redact_pii_dlp`. -/
def redact_pii_dlp (B : Backends) (text : String) : Except String String :=
  B.dlp_deidentify dlp_info_types_redact "[REDACTED]" text

/-- The `score_threshold=0.5` passed to Presidio by `_detect_pii_presidio`. -/
def presidio_score_threshold : ℚ := 1/2

/-- `ProductionSafetyPipeline._detect_pii_presidio` (analyze with
`score_threshold=0.5`). -/
def detect_pii_presidio (B : Backends) (text : String) : Except String DetectionResult := do
  let results ← B.presidio_analyze "en" (some presidio_score_threshold) text
  let findings := results.map fun r =>
    Finding.presidio r.entity_type (sliceStr text r.start r.stop) r.score
  pure { has_pii := findings.length > 0, findings := findings }

/-- `ProductionSafetyPipeline._redact_pii_presidio` (analyze without a
threshold, then anonymize). -/
def redact_pii_presidio (B : Backends) (text : String) : Except String String := do
  let analyzer_results ← B.presidio_analyze "en" none text
  B.presidio_anonymize text analyzer_results

/-- Result of `_moderate_content`. -/
structure ModerationOutcome where
  flagged : Bool
  categories : List (String × ℚ)
deriving DecidableEq

/-- The local reporting threshold `0.5` of `_moderate_content`. -/
def moderation_report_threshold : ℚ := 1/2

/-- The category filter of `_moderate_content`: keep exactly the categories
whose score is strictly greater than `0.5`. -/
def moderationCategories (result : OpenAIModerationResult) : List (String × ℚ) :=
  result.category_scores.filter fun p => moderation_report_threshold < p.2

/-- `ProductionSafetyPipeline._moderate_content`: `flagged` is the
backend's own Boolean, the reported categories are filtered locally. -/
def moderate_content (B : Backends) (text : String) : Except String ModerationOutcome := do
  let result ← B.openai_moderation text
  pure { flagged := result.flagged, categories := moderationCategories result }

/-- The `details` audit record built by `validate_input`. -/
structure ValidationDetails where
  pii_detected : Bool
  harmful_content : Bool
  length_exceeded : Bool
  pii_findings : List Finding
  moderation_flags : List (String × ℚ)
  redacted_text : String
deriving DecidableEq

/-- `(is_safe, processed_text, details)`. -/
abbrev ValidationResult := Bool × String × ValidationDetails

/-- The fresh `details` dictionary at the top of `validate_input`. -/
def initDetails (text : String) : ValidationDetails :=
  { pii_detected := false, harmful_content := false, length_exceeded := false,
    pii_findings := [], moderation_flags := [], redacted_text := text }

/-- Layer 4 of `validate_input` (OpenAI moderation) and the final
`return True, text, details`. -/
def validateFromModeration (B : Backends) (cfg : PipelineConfig) (text : String)
    (block_on_harmful : Bool) (details : ValidationDetails) :
    Except String ValidationResult :=
  if cfg.use_openai_moderation then
    match moderate_content B text with
    | .error e => .error e
    | .ok moderation_result =>
      let details := { details with harmful_content := moderation_result.flagged,
                                    moderation_flags := moderation_result.categories }
      if block_on_harmful && moderation_result.flagged then
        .ok (false, text, details)
      else
        .ok (true, text, details)
  else
    .ok (true, text, details)

/-- Layer 3 of `validate_input` (Presidio backup PII detection). -/
def validateFromPresidio (B : Backends) (cfg : PipelineConfig) (text : String)
    (block_on_pii block_on_harmful : Bool) (details : ValidationDetails) :
    Except String ValidationResult :=
  if cfg.use_presidio then
    match detect_pii_presidio B text with
    | .error e => .error e
    | .ok presidio_result =>
      if presidio_result.has_pii then
        let details := { details with
                           pii_detected := true,
                           pii_findings := details.pii_findings ++ presidio_result.findings }
        if block_on_pii then
          match redact_pii_presidio B text with
          | .error e => .error e
          | .ok r =>
            let details := { details with redacted_text := r }
            .ok (false, details.redacted_text, details)
        else
          validateFromModeration B cfg text block_on_harmful details
      else
        validateFromModeration B cfg text block_on_harmful details
  else
    validateFromModeration B cfg text block_on_harmful details

/-- Layer 2 of `validate_input` (Google DLP PII detection). -/
def validateFromDlp (B : Backends) (cfg : PipelineConfig) (text : String)
    (block_on_pii block_on_harmful : Bool) (details : ValidationDetails) :
    Except String ValidationResult :=
  if cfg.use_google_dlp then
    match detect_pii_dlp B text with
    | .error e => .error e
    | .ok pii_result =>
      let details := { details with
                         pii_detected := pii_result.has_pii,
                         pii_findings := details.pii_findings ++ pii_result.findings }
      if block_on_pii && pii_result.has_pii then
        match redact_pii_dlp B text with
        | .error e => .error e
        | .ok r =>
          let details := { details with redacted_text := r }
          .ok (false, details.redacted_text, details)
      else
        validateFromPresidio B cfg text block_on_pii block_on_harmful details
  else
    validateFromPresidio B cfg text block_on_pii block_on_harmful details

/-- `ProductionSafetyPipeline.validate_input`.  Layer 1 (length check)
marks `length_exceeded` and — when `block_on_pii` is set, which is the flag
the code consults here — terminates with the original text; otherwise the
run proceeds through the PII layers and moderation. -/
def validate_input (B : Backends) (cfg : PipelineConfig) (text : String)
    (max_length : Nat := 10000) (block_on_pii : Bool := true)
    (block_on_harmful : Bool := true) : Except String ValidationResult :=
  let details := initDetails text
  let details := if text.length > max_length then
    { details with length_exceeded := true } else details
  if text.length > max_length && block_on_pii then
    .ok (false, text, details)
  else
    validateFromDlp B cfg text block_on_pii block_on_harmful details

/-! ## Concrete backends used in witnesses and counterexamples -/

/-- A backend suite where every call succeeds and finds nothing. -/
def emptyBackends : Backends :=
  { dlp_inspect := fun _ _ _ => .ok [],
    dlp_deidentify := fun _ _ t => .ok t,
    presidio_analyze := fun _ _ _ => .ok [],
    presidio_anonymize := fun t _ => .ok t,
    openai_moderation := fun _ => .ok { flagged := false, category_scores := [] } }

/-- A backend suite where the Google DLP calls fail (service unreachable /
timeout raising an exception) and everything else is benign. -/
def failingDlpBackends : Backends :=
  { dlp_inspect := fun _ _ _ => .error "DLP backend unreachable",
    dlp_deidentify := fun _ _ _ => .error "DLP backend unreachable",
    presidio_analyze := fun _ _ _ => .ok [],
    presidio_anonymize := fun t _ => .ok t,
    openai_moderation := fun _ => .ok { flagged := false, category_scores := [] } }

/-! ## Layer lemmas for `validate_input` -/

/-- If the moderation backend returns a non-flagged verdict, layer 4
passes the text through unchanged with `is_safe=true`. -/
theorem validateFromModeration_pass (B : Backends) (cfg : PipelineConfig)
    (text : String) (bh : Bool) (d : ValidationDetails) (m : OpenAIModerationResult)
    (hm : B.openai_moderation text = .ok m) (hflag : m.flagged = false) :
    validateFromModeration B cfg text bh d =
      .ok (true, text,
        if cfg.use_openai_moderation then
          { d with harmful_content := false, moderation_flags := moderationCategories m }
        else d) := by
  by_cases h : cfg.use_openai_moderation = true
  · simp [validateFromModeration, h, moderate_content, hm, hflag]
  · simp [validateFromModeration, h]

/-- If the Presidio analyze call reports nothing, layer 3 hands over to
layer 4. -/
theorem validateFromPresidio_skip (B : Backends) (cfg : PipelineConfig)
    (text : String) (bp bh : Bool) (d : ValidationDetails)
    (hpres : B.presidio_analyze "en" (some presidio_score_threshold) text = .ok []) :
    validateFromPresidio B cfg text bp bh d = validateFromModeration B cfg text bh d := by
  by_cases h : cfg.use_presidio = true
  · simp [validateFromPresidio, h, detect_pii_presidio, hpres]
  · simp [validateFromPresidio, h]

/-- If the DLP inspect call reports nothing, layer 2 hands over to layer 3
with `pii_detected` updated to `false`. -/
theorem validateFromDlp_skip (B : Backends) (cfg : PipelineConfig)
    (text : String) (bp bh : Bool) (d : ValidationDetails)
    (hdlp : B.dlp_inspect dlp_info_types_detect "POSSIBLE" text = .ok []) :
    validateFromDlp B cfg text bp bh d =
      validateFromPresidio B cfg text bp bh
        (if cfg.use_google_dlp then { d with pii_detected := false } else d) := by
  by_cases h : cfg.use_google_dlp = true
  · simp [validateFromDlp, h, detect_pii_dlp, hdlp]
  · simp [validateFromDlp, h]

/-! ## Claims about `validate_input` -/

/-- C1: for every text with `len(text) > max_length` and blocking enabled
(the code gates the length block on `block_on_pii`), `validate_input`
returns `is_safe=false`, the original unmodified text (no redaction), and
details with `length_exceeded=true`; no backend is consulted. -/
theorem validate_input_length_block (B : Backends) (cfg : PipelineConfig)
    (text : String) (max_length : Nat) (block_on_harmful : Bool)
    (h : max_length < text.length) :
    validate_input B cfg text max_length true block_on_harmful =
      .ok (false, text, { initDetails text with length_exceeded := true }) := by
  simp [validate_input, h]

/-- Witness for C1: a six-character text against `max_length = 3`. -/
theorem validate_input_length_block_witness :
    validate_input emptyBackends {} "hello!" 3 true true =
      .ok (false, "hello!", { initDetails "hello!" with length_exceeded := true }) :=
  validate_input_length_block emptyBackends {} "hello!" 3 true (by decide)

/-- C2 (counterexample): with the DLP detector failing and fail-closed
behaviour understood as configured, `validate_input` does not return an
`is_safe=false` verdict at all: the backend failure propagates as an
error (the Python code has no handler around the layer calls). -/
theorem validate_input_backend_failure_counterexample :
    validate_input failingDlpBackends {} "hello" 10000 true true =
      .error "DLP backend unreachable" := rfl

/-- C2 (amended): when a detector backend fails during a blocking-enabled
run that reaches it — the primary (DLP) layer with its inspect call
failing, or the backup (Presidio) layer with its analyze call failing
after the run got past layer 2 (DLP disabled, or DLP reporting nothing) —
`validate_input` propagates the failure to its caller; in particular it
never returns `is_safe=true` for such input: a layer failure is not
treated as "no PII found". -/
theorem validate_input_backend_failure_propagates (B : Backends)
    (cfg : PipelineConfig) (text : String) (max_length : Nat)
    (block_on_harmful : Bool) (e : String)
    (hlen : text.length ≤ max_length)
    (hfail :
      (cfg.use_google_dlp = true ∧
        B.dlp_inspect dlp_info_types_detect "POSSIBLE" text = .error e) ∨
      (cfg.use_presidio = true ∧
        (cfg.use_google_dlp = false ∨
          B.dlp_inspect dlp_info_types_detect "POSSIBLE" text = .ok []) ∧
        B.presidio_analyze "en" (some presidio_score_threshold) text =
          .error e)) :
    validate_input B cfg text max_length true block_on_harmful = .error e := by
  have hnl : ¬ text.length > max_length := by omega
  have step : validate_input B cfg text max_length true block_on_harmful =
      validateFromDlp B cfg text true block_on_harmful (initDetails text) := by
    simp [validate_input, hnl]
  rcases hfail with ⟨hdlp_on, herr⟩ | ⟨hpre_on, hreach, herr⟩
  · rw [step]
    simp [validateFromDlp, hdlp_on, detect_pii_dlp, herr]
  · rcases hreach with hoff | hok
    · rw [step]
      simp [validateFromDlp, hoff, validateFromPresidio, hpre_on,
        detect_pii_presidio, herr]
    · rw [step, validateFromDlp_skip B cfg text true block_on_harmful _ hok]
      simp [validateFromPresidio, hpre_on, detect_pii_presidio, herr]

/-- A backend suite where the Presidio calls fail (service unreachable /
timeout raising an exception) and everything else is benign. -/
def failingPresidioBackends : Backends :=
  { dlp_inspect := fun _ _ _ => .ok [],
    dlp_deidentify := fun _ _ t => .ok t,
    presidio_analyze := fun _ _ _ => .error "Presidio backend unreachable",
    presidio_anonymize := fun t _ => .ok t,
    openai_moderation := fun _ => .ok { flagged := false, category_scores := [] } }

/-- Witness for C2's amended theorem: the backup (Presidio) detector fails
in a run that reached layer 3 past a clean DLP layer, and the failure
propagates. -/
theorem validate_input_backend_failure_propagates_witness :
    validate_input failingPresidioBackends {} "hi there" 10000 true true =
      .error "Presidio backend unreachable" :=
  validate_input_backend_failure_propagates failingPresidioBackends {}
    "hi there" 10000 true "Presidio backend unreachable" (by decide)
    (Or.inr ⟨rfl, Or.inr rfl, rfl⟩)

/-- C4: for every text within the length limit for which every enabled
PII detector reports nothing and the classifier returns a non-flagged
verdict, `validate_input` returns `is_safe=true` with the text
unchanged. -/
theorem validate_input_clean_pass (B : Backends) (cfg : PipelineConfig)
    (text : String) (max_length : Nat) (block_on_pii block_on_harmful : Bool)
    (m : OpenAIModerationResult)
    (hlen : text.length ≤ max_length)
    (hdlp : B.dlp_inspect dlp_info_types_detect "POSSIBLE" text = .ok [])
    (hpres : B.presidio_analyze "en" (some presidio_score_threshold) text = .ok [])
    (hm : B.openai_moderation text = .ok m) (hflag : m.flagged = false) :
    ∃ d, validate_input B cfg text max_length block_on_pii block_on_harmful =
      .ok (true, text, d) := by
  have hnl : ¬ text.length > max_length := by omega
  have step : validate_input B cfg text max_length block_on_pii block_on_harmful =
      validateFromDlp B cfg text block_on_pii block_on_harmful (initDetails text) := by
    simp [validate_input, hnl]
  have final := ((step.trans
    (validateFromDlp_skip B cfg text block_on_pii block_on_harmful _ hdlp)).trans
    (validateFromPresidio_skip B cfg text block_on_pii block_on_harmful _ hpres)).trans
    (validateFromModeration_pass B cfg text block_on_harmful _ m hm hflag)
  exact ⟨_, final⟩

/-- Witness for C4: empty-handed backends on a short text. -/
theorem validate_input_clean_pass_witness :
    ∃ d, validate_input emptyBackends {} "hi" 10000 true true = .ok (true, "hi", d) :=
  validate_input_clean_pass emptyBackends {} "hi" 10000 true true
    { flagged := false, category_scores := [] } (by decide) rfl rfl rfl rfl

/-- C5: when the primary (DLP) layer detects PII on a run with
`block_on_pii` enabled, the run terminates at that layer with the DLP
redaction; the returned details record only the PII block — regardless of
what the classifier would say (its premises `hm`/`hflag` are not even
consulted), `harmful_content` stays `false` and `moderation_flags` stays
empty, because the moderation layer never runs. -/
theorem validate_input_primary_pii_precedence (B : Backends)
    (cfg : PipelineConfig) (text : String) (max_length : Nat)
    (block_on_harmful : Bool) (fs : List DlpFinding) (rtext : String)
    (m : OpenAIModerationResult)
    (hdlp_on : cfg.use_google_dlp = true)
    (hlen : text.length ≤ max_length)
    (hfs : B.dlp_inspect dlp_info_types_detect "POSSIBLE" text = .ok fs)
    (hne : fs ≠ [])
    (hred : B.dlp_deidentify dlp_info_types_redact "[REDACTED]" text = .ok rtext)
    (_hm : B.openai_moderation text = .ok m) (_hflag : m.flagged = true) :
    validate_input B cfg text max_length true block_on_harmful =
      .ok (false, rtext,
        { pii_detected := true, harmful_content := false, length_exceeded := false,
          pii_findings := fs.map fun f => Finding.dlp f.info_type f.quote f.likelihood,
          moderation_flags := [], redacted_text := rtext }) := by
  have hnl : ¬ text.length > max_length := by omega
  have hlen0 : 0 < fs.length := by
    cases fs with
    | nil => exact absurd rfl hne
    | cons a l => simp
  simp [validate_input, hnl, validateFromDlp, hdlp_on, detect_pii_dlp, hfs,
    redact_pii_dlp, hred, initDetails, hlen0]

/-- Witness for C5: a DLP backend that reports one finding and redacts. -/
theorem validate_input_primary_pii_precedence_witness :
    validate_input
      { dlp_inspect := fun _ _ _ => .ok [⟨"EMAIL_ADDRESS", "a@b.com", "VERY_LIKELY"⟩],
        dlp_deidentify := fun _ _ _ => .ok "mail [REDACTED]",
        presidio_analyze := fun _ _ _ => .ok [],
        presidio_anonymize := fun t _ => .ok t,
        openai_moderation := fun _ => .ok { flagged := true, category_scores := [] } }
      {} "mail a@b.com" 10000 true true =
      .ok (false, "mail [REDACTED]",
        { pii_detected := true, harmful_content := false, length_exceeded := false,
          pii_findings := [Finding.dlp "EMAIL_ADDRESS" "a@b.com" "VERY_LIKELY"],
          moderation_flags := [], redacted_text := "mail [REDACTED]" }) :=
  validate_input_primary_pii_precedence _ {} "mail a@b.com" 10000 true
    [⟨"EMAIL_ADDRESS", "a@b.com", "VERY_LIKELY"⟩] "mail [REDACTED]"
    { flagged := true, category_scores := [] }
    rfl (by decide) rfl (by decide) rfl rfl rfl

/-! ## C9: the audit record always carries the returned text -/

/-- Layer-4 invariant: if the incoming audit record carries the text that
layer 4 would return, any successful outcome has
`details.redacted_text = processed_text`. -/
theorem validateFromModeration_redacted_inv (B : Backends) (cfg : PipelineConfig)
    (text : String) (bh : Bool) (d : ValidationDetails) (s : Bool) (p : String)
    (dd : ValidationDetails)
    (hred : d.redacted_text = text)
    (h : validateFromModeration B cfg text bh d = .ok (s, p, dd)) :
    dd.redacted_text = p := by
  unfold validateFromModeration at h
  by_cases hc : cfg.use_openai_moderation = true
  · rw [if_pos hc] at h
    cases hmc : moderate_content B text with
    | error e => rw [hmc] at h; cases h
    | ok m =>
      rw [hmc] at h
      simp only [] at h
      split at h <;>
        · simp only [Except.ok.injEq, Prod.mk.injEq] at h
          obtain ⟨h1, h2, h3⟩ := h
          subst h2; subst h3
          simpa using hred
  · rw [if_neg hc] at h
    simp only [Except.ok.injEq, Prod.mk.injEq] at h
    obtain ⟨h1, h2, h3⟩ := h
    subst h2; subst h3
    exact hred

/-- Layer-3 invariant. -/
theorem validateFromPresidio_redacted_inv (B : Backends) (cfg : PipelineConfig)
    (text : String) (bp bh : Bool) (d : ValidationDetails) (s : Bool) (p : String)
    (dd : ValidationDetails)
    (hred : d.redacted_text = text)
    (h : validateFromPresidio B cfg text bp bh d = .ok (s, p, dd)) :
    dd.redacted_text = p := by
  unfold validateFromPresidio at h
  by_cases hc : cfg.use_presidio = true
  · rw [if_pos hc] at h
    cases hd : detect_pii_presidio B text with
    | error e => rw [hd] at h; cases h
    | ok r =>
      rw [hd] at h
      simp only [] at h
      by_cases hp : r.has_pii = true
      · rw [if_pos hp] at h
        by_cases hb : bp = true
        · rw [if_pos hb] at h
          cases ha : redact_pii_presidio B text with
          | error e => rw [ha] at h; cases h
          | ok rr =>
            rw [ha] at h
            simp only [Except.ok.injEq, Prod.mk.injEq] at h
            obtain ⟨h1, h2, h3⟩ := h
            subst h2; subst h3
            rfl
        · rw [if_neg hb] at h
          refine validateFromModeration_redacted_inv B cfg text bh _ s p dd ?_ h
          exact hred
      · rw [if_neg hp] at h
        exact validateFromModeration_redacted_inv B cfg text bh _ s p dd hred h
  · rw [if_neg hc] at h
    exact validateFromModeration_redacted_inv B cfg text bh _ s p dd hred h

/-- Layer-2 invariant. -/
theorem validateFromDlp_redacted_inv (B : Backends) (cfg : PipelineConfig)
    (text : String) (bp bh : Bool) (d : ValidationDetails) (s : Bool) (p : String)
    (dd : ValidationDetails)
    (hred : d.redacted_text = text)
    (h : validateFromDlp B cfg text bp bh d = .ok (s, p, dd)) :
    dd.redacted_text = p := by
  unfold validateFromDlp at h
  by_cases hc : cfg.use_google_dlp = true
  · rw [if_pos hc] at h
    cases hd : detect_pii_dlp B text with
    | error e => rw [hd] at h; cases h
    | ok r =>
      rw [hd] at h
      simp only [] at h
      by_cases hb : (bp && r.has_pii) = true
      · rw [if_pos hb] at h
        cases ha : redact_pii_dlp B text with
        | error e => rw [ha] at h; cases h
        | ok rr =>
          rw [ha] at h
          simp only [Except.ok.injEq, Prod.mk.injEq] at h
          obtain ⟨h1, h2, h3⟩ := h
          subst h2; subst h3
          rfl
      · rw [if_neg hb] at h
        refine validateFromPresidio_redacted_inv B cfg text bp bh _ s p dd ?_ h
        exact hred
  · rw [if_neg hc] at h
    exact validateFromPresidio_redacted_inv B cfg text bp bh _ s p dd hred h

/-- C9: on every successful return path of `validate_input` (length block,
primary PII block, backup PII block, harmful-content block, and pass), the
returned `details.redacted_text` equals the returned `processed_text`. -/
theorem validate_input_redacted_text_eq_processed (B : Backends)
    (cfg : PipelineConfig) (text : String) (max_length : Nat)
    (block_on_pii block_on_harmful : Bool) (s : Bool) (p : String)
    (dd : ValidationDetails)
    (h : validate_input B cfg text max_length block_on_pii block_on_harmful =
      .ok (s, p, dd)) :
    dd.redacted_text = p := by
  unfold validate_input at h
  by_cases hb : (text.length > max_length ∧ block_on_pii = true)
  · rw [if_pos (by simpa using hb)] at h
    simp only [Except.ok.injEq, Prod.mk.injEq] at h
    obtain ⟨h1, h2, h3⟩ := h
    subst h2; subst h3
    split <;> rfl
  · rw [if_neg (by simpa using hb)] at h
    refine validateFromDlp_redacted_inv B cfg text block_on_pii block_on_harmful
      _ s p dd ?_ h
    split <;> rfl

/-- Witness for C9: the clean pass on empty-handed backends. -/
theorem validate_input_redacted_text_eq_processed_witness :
    ({ pii_detected := false, harmful_content := false, length_exceeded := false,
       pii_findings := [], moderation_flags := [],
       redacted_text := "hi" } : ValidationDetails).redacted_text = "hi" :=
  validate_input_redacted_text_eq_processed emptyBackends {} "hi" 10000 true true
    true "hi" _ rfl

/-! ## C8: moderation flags -/

/-- Backends for Scenario D: no PII anywhere; the classifier flags, with
category "harassment" scored `0.9` and a category at exactly the `0.5`
reporting threshold (which must therefore be absent from the report). -/
def scenarioDBackends : Backends :=
  { dlp_inspect := fun _ _ _ => .ok [],
    dlp_deidentify := fun _ _ t => .ok t,
    presidio_analyze := fun _ _ _ => .ok [],
    presidio_anonymize := fun t _ => .ok t,
    openai_moderation := fun _ =>
      .ok { flagged := true
            category_scores := [("harassment", 9/10), ("self-harm", 1/2)] } }

/-- C8: `_moderate_content` passes through the backend's own aggregate
`flagged` Boolean (it is not recomputed from the scores), and a category
appears in the reported mapping iff its backend score is strictly above the
local reporting threshold `0.5`; in particular, Scenario D (no PII,
classifier flags "harassment" at `0.9`, a second category at exactly `0.5`)
ends with `is_safe=false` and `details.moderation_flags` containing exactly
`("harassment", 0.9)`. -/
theorem moderate_content_flags_spec (B : Backends) (text : String)
    (resp : OpenAIModerationResult)
    (h : B.openai_moderation text = .ok resp) :
    (moderate_content B text =
      .ok { flagged := resp.flagged, categories := moderationCategories resp }) ∧
    moderation_report_threshold = 1/2 ∧
    (∀ cat score, (cat, score) ∈ moderationCategories resp ↔
      ((cat, score) ∈ resp.category_scores ∧ moderation_report_threshold < score)) ∧
    validate_input scenarioDBackends {} "hello there" 10000 true true =
      .ok (false, "hello there",
        { initDetails "hello there" with
            harmful_content := true
            moderation_flags := [("harassment", 9/10)] }) := by
  refine ⟨by simp [moderate_content, h], rfl, ?_, ?_⟩
  · intro cat score
    simp [moderationCategories, List.mem_filter]
  · have hlen : ¬ ("hello there".length > 10000) := by decide
    have h1 : moderation_report_threshold < (9/10 : ℚ) := by
      norm_num [moderation_report_threshold]
    have h2 : ¬ moderation_report_threshold < (1/2 : ℚ) := by
      norm_num [moderation_report_threshold]
    simp [validate_input, hlen, validateFromDlp, validateFromPresidio,
      validateFromModeration, detect_pii_dlp, detect_pii_presidio,
      moderate_content, moderationCategories, scenarioDBackends, initDetails,
      h1, h2]
    norm_num [moderation_report_threshold]

/-- Witness for C8: the concrete Scenario-D backend. -/
theorem moderate_content_flags_spec_witness :
    moderate_content scenarioDBackends "x" =
      .ok { flagged := true,
            categories := moderationCategories
              { flagged := true,
                category_scores := [("harassment", 9/10), ("self-harm", 1/2)] } } :=
  (moderate_content_flags_spec scenarioDBackends "x" _ rfl).1

/-! ## C3: Scenario A against `SafetyPipeline.check_input` -/

/-- A moderation backend that never flags. -/
def benignModeration : List Char → Except String Bool := fun _ => .ok false

/-- C3 (counterexample): `SafetyPipeline.check_input` has no block-on-PII
mode.  On `"Contact me at a@b.com"` it redacts the email and, with a
non-flagging classifier, returns `is_safe=true` — not the `is_safe=false`
the claim states. -/
theorem check_input_scenarioA_counterexample :
    check_input benignModeration "Contact me at a@b.com".toList =
      .ok (true, "Contact me at [EMAIL_REDACTED]".toList, []) := rfl

/-- How `check_input` behaves when the moderation call on the (possibly
redacted) text succeeds. -/
theorem check_input_ok (moderate : List Char → Except String Bool)
    (t : List Char) (flagged : Bool)
    (h : moderate (if emailSearch t then emailSub t else t) = .ok flagged) :
    check_input moderate t =
      .ok (!flagged, (if emailSearch t then emailSub t else t),
        if flagged then [("reason", "content_policy_violation")] else []) := by
  unfold check_input
  dsimp only
  rw [h]
  cases flagged <;> simp

/-- C3 (amended): on `"Contact me at a@b.com"`, `check_input` redacts the
email before moderation — `processed_text = "Contact me at [EMAIL_REDACTED]"`
in both outcomes — and `is_safe` is decided by the classifier alone:
`is_safe = !flagged`, with PII never blocking. -/
theorem check_input_scenarioA (moderate : List Char → Except String Bool)
    (flagged : Bool)
    (h : moderate "Contact me at [EMAIL_REDACTED]".toList = .ok flagged) :
    check_input moderate "Contact me at a@b.com".toList =
      .ok (!flagged, "Contact me at [EMAIL_REDACTED]".toList,
        if flagged then [("reason", "content_policy_violation")] else []) := by
  have hif : (if emailSearch "Contact me at a@b.com".toList
        then emailSub "Contact me at a@b.com".toList
        else "Contact me at a@b.com".toList) =
      "Contact me at [EMAIL_REDACTED]".toList := by decide
  have h2 := check_input_ok moderate "Contact me at a@b.com".toList flagged
    (by rw [hif]; exact h)
  rw [hif] at h2
  exact h2

/-- Witness for C3's amended theorem: a flagging classifier blocks with the
redacted text. -/
theorem check_input_scenarioA_witness :
    check_input (fun _ => .ok true) "Contact me at a@b.com".toList =
      .ok (false, "Contact me at [EMAIL_REDACTED]".toList,
        [("reason", "content_policy_violation")]) := by
  have h := check_input_scenarioA (fun _ => .ok true) true rfl
  simpa using h

/-! ## C7: descending-offset replacement equals simultaneous replacement -/

/-- Stable ascending insertion by `BeginOffset` (ties keep original
order). -/
def insertByOffsetAsc (e : ComprehendEntity) :
    List ComprehendEntity → List ComprehendEntity
  | [] => [e]
  | x :: xs =>
    if x.beginOffset < e.beginOffset then x :: insertByOffsetAsc e xs
    else e :: x :: xs

/-- Stable ascending sort by `BeginOffset`. -/
def sortByOffsetAsc : List ComprehendEntity → List ComprehendEntity
  | [] => []
  | e :: es => insertByOffsetAsc e (sortByOffsetAsc es)

/-- Two entity spans do not overlap. -/
def spansDisjoint (a b : ComprehendEntity) : Prop :=
  a.endOffset ≤ b.beginOffset ∨ b.endOffset ≤ a.beginOffset

instance (a b : ComprehendEntity) : Decidable (spansDisjoint a b) :=
  inferInstanceAs
    (Decidable (a.endOffset ≤ b.beginOffset ∨ b.endOffset ≤ a.beginOffset))

theorem insertByOffsetDesc_perm (e : ComprehendEntity)
    (l : List ComprehendEntity) :
    (insertByOffsetDesc e l).Perm (e :: l) := by
  induction l with
  | nil => exact List.Perm.refl _
  | cons x xs ih =>
    by_cases h : e.beginOffset < x.beginOffset
    · rw [insertByOffsetDesc, if_pos h]
      exact (ih.cons x).trans (List.Perm.swap e x xs)
    · rw [insertByOffsetDesc, if_neg h]

theorem sortByOffsetDesc_perm (l : List ComprehendEntity) :
    (sortByOffsetDesc l).Perm l := by
  induction l with
  | nil => exact List.Perm.refl _
  | cons x xs ih =>
    exact (insertByOffsetDesc_perm x (sortByOffsetDesc xs)).trans (ih.cons x)

theorem insertByOffsetAsc_perm (e : ComprehendEntity)
    (l : List ComprehendEntity) :
    (insertByOffsetAsc e l).Perm (e :: l) := by
  induction l with
  | nil => exact List.Perm.refl _
  | cons x xs ih =>
    by_cases h : x.beginOffset < e.beginOffset
    · rw [insertByOffsetAsc, if_pos h]
      exact (ih.cons x).trans (List.Perm.swap e x xs)
    · rw [insertByOffsetAsc, if_neg h]

theorem sortByOffsetAsc_perm (l : List ComprehendEntity) :
    (sortByOffsetAsc l).Perm l := by
  induction l with
  | nil => exact List.Perm.refl _
  | cons x xs ih =>
    exact (insertByOffsetAsc_perm x (sortByOffsetAsc xs)).trans (ih.cons x)

theorem insertByOffsetDesc_sorted (e : ComprehendEntity)
    (l : List ComprehendEntity)
    (h : l.Pairwise fun a b => b.beginOffset ≤ a.beginOffset) :
    (insertByOffsetDesc e l).Pairwise fun a b => b.beginOffset ≤ a.beginOffset := by
  induction l with
  | nil => simp [insertByOffsetDesc]
  | cons x xs ih =>
    rcases List.pairwise_cons.mp h with ⟨hx, hxs⟩
    by_cases hc : e.beginOffset < x.beginOffset
    · rw [insertByOffsetDesc, if_pos hc]
      refine List.pairwise_cons.mpr ⟨?_, ih hxs⟩
      intro f hf
      rcases List.mem_cons.mp ((insertByOffsetDesc_perm e xs).mem_iff.mp hf) with
        rfl | hfx
      · exact Nat.le_of_lt hc
      · exact hx f hfx
    · rw [insertByOffsetDesc, if_neg hc]
      have hxe : x.beginOffset ≤ e.beginOffset := Nat.not_lt.mp hc
      refine List.pairwise_cons.mpr ⟨?_, h⟩
      intro f hf
      rcases List.mem_cons.mp hf with rfl | hfx
      · exact hxe
      · exact Nat.le_trans (hx f hfx) hxe

theorem sortByOffsetDesc_sorted (l : List ComprehendEntity) :
    (sortByOffsetDesc l).Pairwise fun a b => b.beginOffset ≤ a.beginOffset := by
  induction l with
  | nil => simp [sortByOffsetDesc]
  | cons x xs ih => exact insertByOffsetDesc_sorted x (sortByOffsetDesc xs) ih

theorem insertByOffsetAsc_sorted (e : ComprehendEntity)
    (l : List ComprehendEntity)
    (h : l.Pairwise fun a b => a.beginOffset ≤ b.beginOffset) :
    (insertByOffsetAsc e l).Pairwise fun a b => a.beginOffset ≤ b.beginOffset := by
  induction l with
  | nil => simp [insertByOffsetAsc]
  | cons x xs ih =>
    rcases List.pairwise_cons.mp h with ⟨hx, hxs⟩
    by_cases hc : x.beginOffset < e.beginOffset
    · rw [insertByOffsetAsc, if_pos hc]
      refine List.pairwise_cons.mpr ⟨?_, ih hxs⟩
      intro f hf
      rcases List.mem_cons.mp ((insertByOffsetAsc_perm e xs).mem_iff.mp hf) with
        rfl | hfx
      · exact Nat.le_of_lt hc
      · exact hx f hfx
    · rw [insertByOffsetAsc, if_neg hc]
      have hxe : e.beginOffset ≤ x.beginOffset := Nat.not_lt.mp hc
      refine List.pairwise_cons.mpr ⟨?_, h⟩
      intro f hf
      rcases List.mem_cons.mp hf with rfl | hfx
      · exact hxe
      · exact Nat.le_trans hxe (hx f hfx)

theorem sortByOffsetAsc_sorted (l : List ComprehendEntity) :
    (sortByOffsetAsc l).Pairwise fun a b => a.beginOffset ≤ b.beginOffset := by
  induction l with
  | nil => simp [sortByOffsetAsc]
  | cons x xs ih => exact insertByOffsetAsc_sorted x (sortByOffsetAsc xs) ih

theorem replaceSpan_length (t : List Char) (e : ComprehendEntity)
    (hb : e.beginOffset ≤ t.length) :
    (replaceSpan t e).length =
      e.beginOffset + (entityTag e).length + (t.length - e.endOffset) := by
  simp [replaceSpan, Nat.min_eq_left hb]
  omega

/-- Replacements whose spans lie inside the prefix `t1` do not look at the
suffix `u`. -/
theorem foldl_replaceSpan_append (l : List ComprehendEntity) (t1 u : List Char)
    (hend : ∀ e ∈ l, e.beginOffset < e.endOffset ∧ e.endOffset ≤ t1.length)
    (hsorted : l.Pairwise fun a b => b.endOffset ≤ a.beginOffset) :
    List.foldl replaceSpan (t1 ++ u) l = List.foldl replaceSpan t1 l ++ u := by
  induction l generalizing t1 with
  | nil => rfl
  | cons e rest ih =>
    rcases hend e (List.mem_cons_self e rest) with ⟨hbe, hee⟩
    have hbe' : e.beginOffset ≤ t1.length := Nat.le_trans (Nat.le_of_lt hbe) hee
    rcases List.pairwise_cons.mp hsorted with ⟨hhead, htail⟩
    have hstep : replaceSpan (t1 ++ u) e = replaceSpan t1 e ++ u := by
      simp [replaceSpan, List.take_append_eq_append_take,
        List.drop_append_eq_append_drop, Nat.sub_eq_zero_of_le hbe',
        Nat.sub_eq_zero_of_le hee]
    rw [List.foldl_cons, hstep, List.foldl_cons]
    refine ih (replaceSpan t1 e) ?_ htail
    intro f hf
    rcases hend f (List.mem_cons_of_mem e hf) with ⟨hbf, _⟩
    refine ⟨hbf, ?_⟩
    rw [replaceSpan_length t1 e hbe']
    have := hhead f hf
    omega

/-- Peeling the largest-offset entity off the simultaneous-replacement
reference: the earlier entities only look at the prefix before its span. -/
theorem specFrom_append_last (es : List ComprehendEntity) (t : List Char)
    (pos : Nat) (e : ComprehendEntity)
    (h : ∀ f ∈ es, f.beginOffset ≤ e.beginOffset ∧ f.endOffset ≤ e.beginOffset) :
    specFrom t pos (es ++ [e]) =
      specFrom (t.take e.beginOffset) pos es ++ entityTag e ++ t.drop e.endOffset := by
  induction es generalizing pos with
  | nil =>
    simp only [List.nil_append, specFrom]
    rw [List.drop_take]
  | cons f fs ih =>
    rcases h f (List.mem_cons_self f fs) with ⟨hfb, _⟩
    have hsub : f.beginOffset - pos ≤ e.beginOffset - pos := Nat.sub_le_sub_right hfb pos
    simp only [List.cons_append, specFrom, List.append_eq]
    rw [ih f.endOffset (fun g hg => h g (List.mem_cons_of_mem f hg))]
    rw [List.drop_take, List.take_take, Nat.min_eq_left hsub]
    simp [List.append_assoc]

/-- Processing a descending-sorted, pairwise-disjoint entity list from the
end towards the start computes the simultaneous replacement (the reversed,
hence ascending, list fed to `specFrom`). -/
theorem foldl_replaceSpan_desc (l : List ComprehendEntity) (t : List Char)
    (hend : ∀ e ∈ l, e.beginOffset < e.endOffset ∧ e.endOffset ≤ t.length)
    (hsorted : l.Pairwise fun a b => b.endOffset ≤ a.beginOffset) :
    List.foldl replaceSpan t l = specFrom t 0 l.reverse := by
  induction l generalizing t with
  | nil => simp [specFrom]
  | cons e rest ih =>
    rcases hend e (List.mem_cons_self e rest) with ⟨hbe, hee⟩
    have hbe' : e.beginOffset ≤ t.length := Nat.le_trans (Nat.le_of_lt hbe) hee
    rcases List.pairwise_cons.mp hsorted with ⟨hhead, htail⟩
    have htake : (t.take e.beginOffset).length = e.beginOffset :=
      List.length_take_of_le hbe'
    have hrest : ∀ f ∈ rest,
        f.beginOffset < f.endOffset ∧ f.endOffset ≤ (t.take e.beginOffset).length := by
      intro f hf
      rcases hend f (List.mem_cons_of_mem e hf) with ⟨hbf, _⟩
      exact ⟨hbf, by rw [htake]; exact hhead f hf⟩
    have hstep : replaceSpan t e =
        t.take e.beginOffset ++ (entityTag e ++ t.drop e.endOffset) := by
      simp [replaceSpan]
    rw [List.foldl_cons, hstep,
      foldl_replaceSpan_append rest (t.take e.beginOffset)
        (entityTag e ++ t.drop e.endOffset) hrest htail,
      ih (t.take e.beginOffset) hrest htail]
    rw [List.reverse_cons,
      specFrom_append_last rest.reverse t 0 e ?side]
    · simp [List.append_assoc]
    case side =>
      intro f hf
      rw [List.mem_reverse] at hf
      rcases hend f (List.mem_cons_of_mem e hf) with ⟨hbf, _⟩
      have := hhead f hf
      constructor <;> omega

/-- Strict `BeginOffset` order on entities. -/
def entLtBegin (a b : ComprehendEntity) : Prop := a.beginOffset < b.beginOffset

instance : IsAntisymm ComprehendEntity entLtBegin :=
  ⟨fun _ _ h1 h2 => absurd h2 (Nat.lt_asymm h1)⟩

/-- With pairwise-distinct begin offsets, reversing the stable descending
sort gives the stable ascending sort: both are the unique strictly
ascending arrangement of the entities. -/
theorem sortByOffsetDesc_reverse_eq_asc (l : List ComprehendEntity)
    (hne : l.Pairwise fun a b => a.beginOffset ≠ b.beginOffset) :
    (sortByOffsetDesc l).reverse = sortByOffsetAsc l := by
  have hned : (sortByOffsetDesc l).Pairwise
      (fun a b => a.beginOffset ≠ b.beginOffset) :=
    ((sortByOffsetDesc_perm l).pairwise_iff fun h => Ne.symm h).mpr hne
  have hnea : (sortByOffsetAsc l).Pairwise
      (fun a b => a.beginOffset ≠ b.beginOffset) :=
    ((sortByOffsetAsc_perm l).pairwise_iff fun h => Ne.symm h).mpr hne
  have hstrictd : (sortByOffsetDesc l).Pairwise fun a b => entLtBegin b a := by
    refine ((sortByOffsetDesc_sorted l).and hned).imp ?_
    rintro a b ⟨h1, h2⟩
    exact Nat.lt_of_le_of_ne h1 (Ne.symm h2)
  have hstricta : List.Sorted entLtBegin (sortByOffsetAsc l) := by
    refine ((sortByOffsetAsc_sorted l).and hnea).imp ?_
    rintro a b ⟨h1, h2⟩
    exact Nat.lt_of_le_of_ne h1 h2
  have hrev : List.Sorted entLtBegin (sortByOffsetDesc l).reverse :=
    List.pairwise_reverse.mpr hstrictd
  have hperm : (sortByOffsetDesc l).reverse.Perm (sortByOffsetAsc l) :=
    ((List.reverse_perm _).trans (sortByOffsetDesc_perm l)).trans
      (sortByOffsetAsc_perm l).symm
  exact List.eq_of_perm_of_sorted hperm hrev hstricta

/-- C7: for in-bounds, non-empty, pairwise non-overlapping detector spans,
`AWSPIIDetector.redact_pii` — which sorts by `BeginOffset` descending and
replaces from the end towards the start — returns exactly the string
obtained by replacing each span `text[start:end]` of the original text by
`"[" ++ Type ++ "]"`, i.e. `specFrom` applied to the ascending arrangement
of the same entities; no replacement shifts the offsets of a
not-yet-processed entity. -/
theorem redact_pii_aws_spec (t : List Char) (ents : List ComprehendEntity)
    (hb : ∀ e ∈ ents, e.beginOffset < e.endOffset ∧ e.endOffset ≤ t.length)
    (hdisj : ents.Pairwise spansDisjoint) :
    redact_pii_aws t ents = specFrom t 0 (sortByOffsetAsc ents) ∧
    (sortByOffsetAsc ents).Perm ents ∧
    (sortByOffsetAsc ents).Pairwise
      (fun a b => a.beginOffset ≤ b.beginOffset) := by
  refine ⟨?_, sortByOffsetAsc_perm ents, sortByOffsetAsc_sorted ents⟩
  have hne : ents.Pairwise fun a b => a.beginOffset ≠ b.beginOffset := by
    refine hdisj.imp_of_mem ?_
    intro a b ha hb' hab
    rcases hb a ha with ⟨ha1, _⟩
    rcases hb b hb' with ⟨hb1, _⟩
    rcases hab with h1 | h2 <;> omega
  have hmemd : ∀ e ∈ sortByOffsetDesc ents, e ∈ ents :=
    fun e he => (sortByOffsetDesc_perm ents).mem_iff.mp he
  have hdisjd : (sortByOffsetDesc ents).Pairwise spansDisjoint :=
    ((sortByOffsetDesc_perm ents).pairwise_iff fun h => Or.symm h).mpr hdisj
  have hsortedd : (sortByOffsetDesc ents).Pairwise
      fun a b => b.endOffset ≤ a.beginOffset := by
    refine ((sortByOffsetDesc_sorted ents).and hdisjd).imp_of_mem ?_
    rintro a b ha hb' ⟨h1, h2⟩
    rcases hb a (hmemd a ha) with ⟨ha1, _⟩
    rcases hb b (hmemd b hb') with ⟨hb1, _⟩
    rcases h2 with h2 | h2 <;> omega
  rw [redact_pii_aws]
  rw [foldl_replaceSpan_desc (sortByOffsetDesc ents) t
    (fun e he => hb e (hmemd e he)) hsortedd]
  rw [sortByOffsetDesc_reverse_eq_asc ents hne]

/-- Witness for C7: two disjoint spans given out of order. -/
theorem redact_pii_aws_spec_witness :
    redact_pii_aws "call 555, mail a@b.c".toList
        [⟨"EMAIL".toList, 1, 15, 20⟩, ⟨"PHONE".toList, 1, 5, 8⟩] =
      specFrom "call 555, mail a@b.c".toList 0
        (sortByOffsetAsc
          [⟨"EMAIL".toList, 1, 15, 20⟩, ⟨"PHONE".toList, 1, 5, 8⟩]) :=
  (redact_pii_aws_spec "call 555, mail a@b.c".toList
    [⟨"EMAIL".toList, 1, 15, 20⟩, ⟨"PHONE".toList, 1, 5, 8⟩]
    (by decide) (by decide)).1

/-! ## C10: the processed text of `check_input` contains no email match

The theorem is that `re.sub` output contains no position where the email
pattern matches.  The word-boundary context of a position `i` is the word
status of the character at `i - 1` (`b` for `i = 0`). -/

/-- Word-boundary context of position `i` in `s`, where `b` is the context
of position `0`. -/
def ctxAt (b : Bool) (s : List Char) : Nat → Bool
  | 0 => b
  | i + 1 => wordAt s i

/-- No position of `s` (under left context `b` at position `0`) starts an
email-pattern match. -/
def noMatchAll (b : Bool) (s : List Char) : Prop :=
  ∀ i, matchLen (ctxAt b s i) (s.drop i) = none

theorem run_le_length (p : Char → Bool) (s : List Char) : run p s ≤ s.length := by
  induction s with
  | nil => simp [run]
  | cons c cs ih =>
    rw [run]
    by_cases h : p c = true
    · simp [h]; omega
    · simp [h]

theorem run_append_lt (p : Char → Bool) (xs ys : List Char)
    (h : run p xs < xs.length) : run p (xs ++ ys) = run p xs := by
  induction xs with
  | nil => simp [run] at h
  | cons c cs ih =>
    rw [List.cons_append, run, run]
    by_cases hc : p c = true
    · rw [if_pos hc, if_pos hc, ih]
      rw [run, if_pos hc] at h
      simp at h
      omega
    · rw [if_neg hc, if_neg hc]

theorem run_take_stop (p : Char → Bool) (c : Char) (hp : p c = false)
    (s w : List Char) (M : Nat) :
    run p (s.take M ++ c :: w) = min (run p s) M := by
  induction M generalizing s with
  | zero => simp [run, hp]
  | succ m ih =>
    cases s with
    | nil => simp [run, hp]
    | cons a as =>
      rw [List.take_succ_cons, List.cons_append, run, run]
      by_cases ha : p a = true
      · rw [if_pos ha, if_pos ha, ih]
        omega
      · rw [if_neg ha, if_neg ha]
        simp

theorem getElem?_take_append_lt (s z : List Char) (M i : Nat)
    (hi : i < M) (hM : M ≤ s.length) :
    (s.take M ++ z)[i]? = s[i]? := by
  rw [List.getElem?_append]
  rw [List.length_take]
  rw [if_pos (by omega)]
  rw [List.getElem?_take]
  rw [if_pos hi]

theorem getElem?_take_append_self (s z : List Char) (M : Nat)
    (hM : M ≤ s.length) (c : Char) (w : List Char) (hz : z = c :: w) :
    (s.take M ++ z)[M]? = some c := by
  subst hz
  rw [List.getElem?_append]
  rw [List.length_take]
  rw [if_neg (by omega)]
  have h1 : M - min M s.length = 0 := by omega
  rw [h1]
  simp

theorem wordAt_take_append_lt (s z : List Char) (M i : Nat)
    (hi : i < M) (hM : M ≤ s.length) :
    wordAt (s.take M ++ z) i = wordAt s i := by
  rw [wordAt, wordAt, getElem?_take_append_lt s z M i hi hM]

theorem wordAt_take_append_self (s w : List Char) (M : Nat)
    (hM : M ≤ s.length) :
    wordAt (s.take M ++ '[' :: w) M = false := by
  rw [wordAt, getElem?_take_append_self s ('[' :: w) M hM '[' w rfl]
  rfl

theorem wordAt_drop (s : List Char) (j i : Nat) :
    wordAt (s.drop j) i = wordAt s (j + i) := by
  rw [wordAt, wordAt, List.getElem?_drop]

theorem wordAt_cons_zero (c : Char) (v : List Char) :
    wordAt (c :: v) 0 = isWordChar c := by
  simp [wordAt]

theorem wordAt_cons_succ (c : Char) (v : List Char) (i : Nat) :
    wordAt (c :: v) (i + 1) = wordAt v i := by
  simp [wordAt]

theorem drop_take_append (s z : List Char) (M j : Nat)
    (hj : j ≤ M) (hM : M ≤ s.length) :
    (s.take M ++ z).drop j = (s.drop j).take (M - j) ++ z := by
  rw [List.drop_append_eq_append_drop]
  rw [List.length_take]
  have h0 : j - min M s.length = 0 := by omega
  rw [h0, List.drop_zero, List.drop_take]

theorem matchLen_nil (b : Bool) : matchLen b [] = none := by
  simp [matchLen, run]

theorem matchLen_eq_none_of_ctx (b : Bool) (s : List Char)
    (h : b = wordAt s 0) : matchLen b s = none := by
  unfold matchLen
  by_cases hL : run isLocalChar s = 0
  · simp [hL]
  · simp [hL, h]

theorem tryTld_some_inv (s : List Char) (kmax k : Nat)
    (h : tryTld s kmax = some k) :
    2 ≤ k ∧ k ≤ kmax ∧ wordAt s (k - 1) ≠ wordAt s k := by
  induction kmax with
  | zero => simp [tryTld] at h
  | succ n ih =>
    match n, h with
    | 0, h => simp [tryTld] at h
    | m + 1, h =>
      rw [tryTld] at h
      by_cases hb : (wordAt s (m + 1) != wordAt s (m + 2)) = true
      · rw [if_pos hb] at h
        have hk : k = m + 2 := by
          have := Option.some.inj h
          omega
        subst hk
        refine ⟨by omega, Nat.le_refl _, ?_⟩
        have : m + 2 - 1 = m + 1 := by omega
        rw [this]
        exact bne_iff_ne.mp hb
      · rw [if_neg hb] at h
        rcases ih h with ⟨h1, h2, h3⟩
        exact ⟨h1, by omega, h3⟩

theorem tryTld_isSome_of (s : List Char) (kmax k : Nat)
    (h2 : 2 ≤ k) (hk : k ≤ kmax) (hb : wordAt s (k - 1) ≠ wordAt s k) :
    (tryTld s kmax).isSome := by
  induction kmax with
  | zero => omega
  | succ n ih =>
    match n with
    | 0 => omega
    | m + 1 =>
      rw [tryTld]
      by_cases hc : (wordAt s (m + 1) != wordAt s (m + 2)) = true
      · simp [hc]
      · rw [if_neg hc]
        have hkne : k ≠ m + 2 := by
          intro hkeq
          subst hkeq
          have : m + 2 - 1 = m + 1 := by omega
          rw [this] at hb
          exact hc (bne_iff_ne.mpr hb)
        exact ih (by omega)

theorem tryDomain_some_inv (s : List Char) (dmax r : Nat)
    (h : tryDomain s dmax = some r) :
    ∃ dl k, 1 ≤ dl ∧ dl ≤ dmax ∧ s[dl]? = some '.' ∧
      tryTld (s.drop (dl + 1)) (run isTldChar (s.drop (dl + 1))) = some k ∧
      r = dl + 1 + k := by
  induction dmax with
  | zero => simp [tryDomain] at h
  | succ d ih =>
    rw [tryDomain] at h
    by_cases hdot : s[d + 1]? = some '.'
    · rw [if_pos hdot] at h
      cases htld : tryTld (s.drop (d + 2)) (run isTldChar (s.drop (d + 2))) with
      | some k =>
        rw [htld] at h
        refine ⟨d + 1, k, by omega, Nat.le_refl _, hdot, ?_, ?_⟩
        · have : d + 1 + 1 = d + 2 := by omega
          rw [this]
          exact htld
        · have := Option.some.inj h
          omega
      | none =>
        rw [htld] at h
        rcases ih h with ⟨dl, k, h1, h2, h3, h4, h5⟩
        exact ⟨dl, k, h1, by omega, h3, h4, h5⟩
    · rw [if_neg hdot] at h
      rcases ih h with ⟨dl, k, h1, h2, h3, h4, h5⟩
      exact ⟨dl, k, h1, by omega, h3, h4, h5⟩

theorem tryDomain_isSome_of (s : List Char) (dmax dl : Nat)
    (h1 : 1 ≤ dl) (hd : dl ≤ dmax) (hdot : s[dl]? = some '.')
    (ht : (tryTld (s.drop (dl + 1)) (run isTldChar (s.drop (dl + 1)))).isSome) :
    (tryDomain s dmax).isSome := by
  induction dmax with
  | zero => omega
  | succ d ih =>
    rw [tryDomain]
    by_cases hdot2 : s[d + 1]? = some '.'
    · rw [if_pos hdot2]
      cases htld : tryTld (s.drop (d + 2)) (run isTldChar (s.drop (d + 2))) with
      | some k => simp
      | none =>
        by_cases hde : dl = d + 1
        · subst hde
          rw [show d + 1 + 1 = d + 2 from by omega] at ht
          rw [htld] at ht
          simp at ht
        · exact ih (by omega)
    · rw [if_neg hdot2]
      have hde : dl ≠ d + 1 := fun he => hdot2 (he ▸ hdot)
      exact ih (by omega)

theorem matchLen_some_inv (pw : Bool) (s : List Char) (l : Nat)
    (h : matchLen pw s = some l) :
    1 ≤ run isLocalChar s ∧ pw ≠ wordAt s 0 ∧
    s[run isLocalChar s]? = some '@' ∧
    ∃ m, tryDomain (s.drop (run isLocalChar s + 1))
        (run isDomainChar (s.drop (run isLocalChar s + 1))) = some m ∧
      l = run isLocalChar s + 1 + m := by
  unfold matchLen at h
  by_cases hL : run isLocalChar s = 0
  · simp [hL] at h
  · rw [if_neg hL] at h
    by_cases hb : pw = wordAt s 0
    · rw [if_pos hb] at h; cases h
    · rw [if_neg hb] at h
      by_cases hat : s[run isLocalChar s]? = some '@'
      · rw [if_pos hat] at h
        cases hd : tryDomain (s.drop (run isLocalChar s + 1))
            (run isDomainChar (s.drop (run isLocalChar s + 1))) with
        | some m =>
          rw [hd] at h
          simp at h
          refine ⟨by omega, hb, hat, m, rfl, ?_⟩
          omega
        | none => rw [hd] at h; cases h
      · rw [if_neg hat] at h; cases h

theorem matchLen_isSome_of (pw : Bool) (s : List Char)
    (hL : 1 ≤ run isLocalChar s) (hb : pw ≠ wordAt s 0)
    (hat : s[run isLocalChar s]? = some '@')
    (hd : (tryDomain (s.drop (run isLocalChar s + 1))
      (run isDomainChar (s.drop (run isLocalChar s + 1)))).isSome) :
    (matchLen pw s).isSome := by
  unfold matchLen
  rw [if_neg (by omega), if_neg hb, if_pos hat]
  cases hdd : tryDomain (s.drop (run isLocalChar s + 1))
      (run isDomainChar (s.drop (run isLocalChar s + 1))) with
  | some m => simp
  | none => rw [hdd] at hd; simp at hd

/-- TLD transfer: a TLD accepted inside the prefix of
`u.take M ++ '[' :: w` is accepted in `u`, given the word boundary between
positions `M - 1` and `M` of `u`. -/
theorem tryTld_bracket (u w : List Char) (M : Nat)
    (_hM1 : 1 ≤ M) (hMu : M ≤ u.length)
    (hbnd : wordAt u (M - 1) ≠ wordAt u M)
    (hsome : (tryTld (u.take M ++ '[' :: w)
      (run isTldChar (u.take M ++ '[' :: w))).isSome) :
    (tryTld u (run isTldChar u)).isSome := by
  rcases Option.isSome_iff_exists.mp hsome with ⟨k, hk⟩
  rcases tryTld_some_inv _ _ _ hk with ⟨h2, hkmax, hb⟩
  rw [run_take_stop isTldChar '[' (by decide) u w M] at hkmax
  have hkM : k ≤ M := Nat.le_trans hkmax (Nat.min_le_right _ _)
  have hkr : k ≤ run isTldChar u := Nat.le_trans hkmax (Nat.min_le_left _ _)
  by_cases hlt : k < M
  · rw [wordAt_take_append_lt u _ M (k - 1) (by omega) hMu,
      wordAt_take_append_lt u _ M k hlt hMu] at hb
    exact tryTld_isSome_of u _ k h2 hkr hb
  · have hkM' : k = M := by omega
    rw [hkM', wordAt_take_append_lt u _ M (M - 1) (by omega) hMu,
      wordAt_take_append_self u w M hMu] at hb
    have hw1 : wordAt u (M - 1) = true := by
      cases hq : wordAt u (M - 1) with
      | false => rw [hq] at hb; exact absurd rfl hb
      | true => rfl
    have hw2 : wordAt u M = false := by
      rw [hw1] at hbnd
      cases hq : wordAt u M with
      | false => rfl
      | true => rw [hq] at hbnd; exact absurd rfl hbnd
    refine tryTld_isSome_of u _ k h2 hkr ?_
    rw [hkM', hw1, hw2]
    simp

/-- Domain/TLD transfer through the bracket boundary. -/
theorem tryDomain_bracket (v w : List Char) (M : Nat)
    (hM1 : 1 ≤ M) (hMv : M ≤ v.length)
    (hbnd : wordAt v (M - 1) ≠ wordAt v M)
    (hsome : (tryDomain (v.take M ++ '[' :: w)
      (run isDomainChar (v.take M ++ '[' :: w))).isSome) :
    (tryDomain v (run isDomainChar v)).isSome := by
  rcases Option.isSome_iff_exists.mp hsome with ⟨r, hr⟩
  rcases tryDomain_some_inv _ _ _ hr with ⟨dl, k, hdl1, hdlmax, hdot, htld, _⟩
  rw [run_take_stop isDomainChar '[' (by decide) v w M] at hdlmax
  have hdlM : dl ≤ M := Nat.le_trans hdlmax (Nat.min_le_right _ _)
  have hdlr : dl ≤ run isDomainChar v := Nat.le_trans hdlmax (Nat.min_le_left _ _)
  by_cases hlt : dl < M
  · rw [getElem?_take_append_lt v _ M dl hlt hMv] at hdot
    rw [drop_take_append v ('[' :: w) M (dl + 1) (by omega) hMv] at htld
    by_cases hM0 : M - (dl + 1) = 0
    · rw [hM0] at htld
      rw [List.take_zero, List.nil_append] at htld
      rw [show run isTldChar ('[' :: w) = 0 from by simp [run, isTldChar]] at htld
      simp [tryTld] at htld
    · have htsome : (tryTld ((v.drop (dl + 1)).take (M - (dl + 1)) ++ '[' :: w)
          (run isTldChar ((v.drop (dl + 1)).take (M - (dl + 1)) ++ '[' :: w))).isSome := by
        rw [htld]; simp
      have hrec := tryTld_bracket (v.drop (dl + 1)) w (M - (dl + 1))
        (by omega) (by simp [List.length_drop]; omega) ?bnd htsome
      case bnd =>
        rw [wordAt_drop, wordAt_drop]
        rw [show dl + 1 + (M - (dl + 1) - 1) = M - 1 from by omega,
          show dl + 1 + (M - (dl + 1)) = M from by omega]
        exact hbnd
      exact tryDomain_isSome_of v _ dl hdl1 hdlr hdot hrec
  · have hdlM' : dl = M := by omega
    rw [hdlM', getElem?_take_append_self v ('[' :: w) M hMv '[' w rfl] at hdot
    cases hdot

/-- Match transfer: if no match starts at the head of `s` (under context
`b`) and a word boundary separates positions `M - 1` and `M` of `s`, then
no match starts at the head of `s.take M ++ '[' :: w` either — replacing
the tail from position `M` on by a placeholder cannot create a match. -/
theorem matchLen_bracket (s w : List Char) (M : Nat) (b : Bool)
    (hM1 : 1 ≤ M) (hMs : M ≤ s.length)
    (hbnd : wordAt s (M - 1) ≠ wordAt s M)
    (hnone : matchLen b s = none) :
    matchLen b (s.take M ++ '[' :: w) = none := by
  cases hq : matchLen b (s.take M ++ '[' :: w) with
  | none => rfl
  | some l =>
    exfalso
    rcases matchLen_some_inv _ _ _ hq with ⟨hL, hctx, hat, m, hdom, _⟩
    rw [run_take_stop isLocalChar '[' (by decide) s w M] at hL hat hdom
    have hLM : min (run isLocalChar s) M ≤ M := Nat.min_le_right _ _
    have hLr : min (run isLocalChar s) M ≤ run isLocalChar s := Nat.min_le_left _ _
    by_cases hlt : min (run isLocalChar s) M < M
    · have hLs : min (run isLocalChar s) M = run isLocalChar s := by omega
      rw [hLs] at hat hdom
      rw [getElem?_take_append_lt s _ M (run isLocalChar s) (by omega) hMs] at hat
      have hctx' : b ≠ wordAt s 0 := by
        rw [wordAt_take_append_lt s _ M 0 (by omega) hMs] at hctx
        exact hctx
      set L := run isLocalChar s with hLdef
      rw [drop_take_append s ('[' :: w) M (L + 1) (by omega) hMs] at hdom
      by_cases hM0 : M - (L + 1) = 0
      · rw [hM0] at hdom
        rw [List.take_zero, List.nil_append] at hdom
        rw [show run isDomainChar ('[' :: w) = 0 from by simp [run, isDomainChar]] at hdom
        simp [tryDomain] at hdom
      · have hdsome : (tryDomain ((s.drop (L + 1)).take (M - (L + 1)) ++ '[' :: w)
            (run isDomainChar ((s.drop (L + 1)).take (M - (L + 1)) ++ '[' :: w))).isSome := by
          rw [hdom]; simp
        have hrec := tryDomain_bracket (s.drop (L + 1)) w (M - (L + 1))
          (by omega) (by simp [List.length_drop]; omega) ?bnd hdsome
        case bnd =>
          rw [wordAt_drop, wordAt_drop]
          rw [show L + 1 + (M - (L + 1) - 1) = M - 1 from by omega,
            show L + 1 + (M - (L + 1)) = M from by omega]
          exact hbnd
        have := matchLen_isSome_of b s (by omega) hctx' hat hrec
        rw [hnone] at this
        simp at this
    · have hLM' : min (run isLocalChar s) M = M := by omega
      rw [hLM'] at hat
      rw [getElem?_take_append_self s ('[' :: w) M hMs '[' w rfl] at hat
      cases hat

/-- If the local run of `xs` stops strictly inside `xs` and is not followed
by `'@'`, no match starts at the head of `xs ++ w`, whatever follows. -/
theorem matchLen_append_none (xs w : List Char) (b : Bool)
    (hrb : run isLocalChar xs < xs.length)
    (hat : xs[run isLocalChar xs]? ≠ some '@') :
    matchLen b (xs ++ w) = none := by
  unfold matchLen
  rw [run_append_lt isLocalChar xs w hrb]
  by_cases hL : run isLocalChar xs = 0
  · simp [hL]
  · rw [if_neg hL]
    by_cases hctx : b = wordAt (xs ++ w) 0
    · rw [if_pos hctx]
    · rw [if_neg hctx]
      have : (xs ++ w)[run isLocalChar xs]? = xs[run isLocalChar xs]? := by
        rw [List.getElem?_append, if_pos hrb]
      rw [this, if_neg hat]

/-- No match starts inside the replacement token (followed by anything):
a candidate's local run hits `'['` or `']'` before any `'@'`. -/
theorem tokenChars_matchLen_none (i : Nat) (hi : i < 16) (b : Bool)
    (w : List Char) :
    matchLen b (tokenChars.drop i ++ w) = none := by
  interval_cases i <;>
    exact matchLen_append_none _ w b (by decide) (by decide)

/-- Build `noMatchAll` for a cons cell. -/
theorem noMatchAll_cons (b : Bool) (c : Char) (v : List Char)
    (h0 : matchLen b (c :: v) = none)
    (hv : noMatchAll (isWordChar c) v) :
    noMatchAll b (c :: v) := by
  intro i
  cases i with
  | zero => exact h0
  | succ j =>
    have := hv j
    cases j with
    | zero =>
      rw [ctxAt, wordAt_cons_zero]
      rw [ctxAt] at this
      exact this
    | succ j' =>
      rw [ctxAt, wordAt_cons_succ]
      rw [ctxAt] at this
      exact this

/-- Build `noMatchAll` for a token followed by a match-free suffix. -/
theorem noMatchAll_token (b : Bool) (O : List Char)
    (hO : noMatchAll false O) :
    noMatchAll b (tokenChars ++ O) := by
  intro i
  by_cases hi : i < 16
  · have hdrop : (tokenChars ++ O).drop i = tokenChars.drop i ++ O := by
      rw [List.drop_append_eq_append_drop]
      rw [show i - tokenChars.length = 0 from by
        simp [tokenChars]; omega]
      rw [List.drop_zero]
    rw [hdrop]
    exact tokenChars_matchLen_none i hi _ O
  · have hi16 : 16 ≤ i := by omega
    obtain ⟨j, rfl⟩ : ∃ j, i = 16 + j := ⟨i - 16, by omega⟩
    have hdrop : (tokenChars ++ O).drop (16 + j) = O.drop j := by
      rw [List.drop_append_eq_append_drop]
      rw [show 16 + j - tokenChars.length = j from by simp [tokenChars]]
      rw [show List.drop (16 + j) tokenChars = [] from by
        apply List.drop_eq_nil_of_le
        simp [tokenChars]]
      rw [List.nil_append]
    rw [hdrop]
    have hctx : ctxAt b (tokenChars ++ O) (16 + j) = ctxAt false O j := by
      cases j with
      | zero =>
        rw [show (16 : Nat) + 0 = 15 + 1 from rfl, ctxAt, ctxAt]
        rw [wordAt, List.getElem?_append, if_pos (by simp [tokenChars])]
        decide
      | succ j' =>
        rw [show 16 + (j' + 1) = (15 + j' + 1) + 1 from by omega, ctxAt, ctxAt]
        rw [wordAt, wordAt, List.getElem?_append,
          if_neg (by simp [tokenChars])]
        rw [show 15 + j' + 1 - tokenChars.length = j' from by simp [tokenChars]]
    rw [hctx]
    exact hO j

theorem noMatchAll_nil (b : Bool) : noMatchAll b [] := by
  intro i
  rw [List.drop_nil]
  exact matchLen_nil _

/-- Facts extracted from a successful match: it is non-empty, in bounds,
its start satisfies `\b` against the scan context, and its end satisfies
`\b` against the following character. -/
theorem matchLen_some_facts (pw : Bool) (s : List Char) (l : Nat)
    (h : matchLen pw s = some l) :
    1 ≤ l ∧ l ≤ s.length ∧ pw ≠ wordAt s 0 ∧ wordAt s (l - 1) ≠ wordAt s l := by
  rcases matchLen_some_inv pw s l h with ⟨hL, hctx, _hat, m, hdom, hl⟩
  rcases tryDomain_some_inv _ _ _ hdom with ⟨dl, k, hdl1, _hdlmax, _hdot, htld, hm⟩
  rcases tryTld_some_inv _ _ _ htld with ⟨hk2, hkmax, hbt⟩
  have hrun := run_le_length isTldChar
    ((s.drop (run isLocalChar s + 1)).drop (dl + 1))
  have hlen1 : ((s.drop (run isLocalChar s + 1)).drop (dl + 1)).length
      = s.length - (run isLocalChar s + 1) - (dl + 1) := by
    simp [List.length_drop]
    omega
  rw [wordAt_drop, wordAt_drop, wordAt_drop, wordAt_drop] at hbt
  refine ⟨by omega, by omega, hctx, ?_⟩
  rw [show l - 1 = run isLocalChar s + 1 + (dl + 1 + (k - 1)) from by omega,
    show l = run isLocalChar s + 1 + (dl + 1 + k) from by omega]
  exact hbt

/-- The scan of `re.sub` leaves no matchable position in its output: the
output has no match at any position (under the left context the output
piece sits in), and it is the input itself or an unmatched prefix of the
input followed by `'['` — with the word boundary of the first replaced
match separating the two. -/
theorem subGo_noMatch (f : Nat) (s : List Char) (pw b : Bool)
    (hf : s.length ≤ f)
    (hb : b = pw ∨ (b = false ∧ (s = [] ∨ pw ≠ wordAt s 0))) :
    noMatchAll b (subGo f pw s) ∧
    (subGo f pw s = s ∨
      ∃ M w, subGo f pw s = s.take M ++ '[' :: w ∧ M ≤ s.length ∧
        (if M = 0 then pw else wordAt s (M - 1)) ≠ wordAt s M) := by
  induction f generalizing s pw b with
  | zero =>
    have hs : s = [] := List.eq_nil_of_length_eq_zero (by omega)
    subst hs
    exact ⟨by rw [subGo]; exact noMatchAll_nil b, Or.inl (by rw [subGo])⟩
  | succ f ih =>
    cases s with
    | nil =>
      exact ⟨by rw [subGo]; exact noMatchAll_nil b, Or.inl (by rw [subGo])⟩
    | cons c cs =>
      have hcs : cs.length ≤ f := by
        simp [List.length_cons] at hf
        omega
      rw [subGo]
      cases hm : matchLen pw (c :: cs) with
      | none =>
        have ihc := ih cs (isWordChar c) (isWordChar c) hcs (Or.inl rfl)
        have hbn : matchLen b (c :: cs) = none := by
          rcases hb with rfl | ⟨rfl, hb2⟩
          · exact hm
          · rcases hb2 with hnil | hne
            · cases hnil
            · by_cases hw : wordAt (c :: cs) 0 = true
              · have hpwf : pw = false := by
                  cases hpw : pw with
                  | false => rfl
                  | true => rw [hpw, hw] at hne; exact absurd rfl hne
                rw [← hpwf]
                exact hm
              · refine matchLen_eq_none_of_ctx false (c :: cs) ?_
                cases hq : wordAt (c :: cs) 0 with
                | false => rfl
                | true => exact absurd hq hw
        constructor
        · refine noMatchAll_cons b c _ ?_ ihc.1
          rcases ihc.2 with hid | ⟨M, w, hsh, hMle, hMb⟩
          · rw [hid]; exact hbn
          · rw [hsh]
            have heq : c :: (cs.take M ++ '[' :: w) =
                (c :: cs).take (M + 1) ++ '[' :: w := by
              rw [List.take_succ_cons, List.cons_append]
            rw [heq]
            refine matchLen_bracket (c :: cs) w (M + 1) b (by omega)
              (by simp [List.length_cons]; omega) ?_ hbn
            cases M with
            | zero =>
              rw [if_pos rfl] at hMb
              rw [show (0:Nat) + 1 - 1 = 0 from rfl, wordAt_cons_zero,
                show (0:Nat) + 1 = 0 + 1 from rfl, wordAt_cons_succ]
              exact hMb
            | succ M' =>
              rw [if_neg (by omega)] at hMb
              rw [show M' + 1 + 1 - 1 = M' + 1 from by omega, wordAt_cons_succ,
                wordAt_cons_succ]
              rw [show M' + 1 - 1 = M' from by omega] at hMb
              exact hMb
        · rcases ihc.2 with hid | ⟨M, w, hsh, hMle, hMb⟩
          · left; rw [hid]
          · right
            refine ⟨M + 1, w, ?_, by simp [List.length_cons]; omega, ?_⟩
            · rw [hsh, List.take_succ_cons, List.cons_append]
            · rw [if_neg (by omega)]
              cases M with
              | zero =>
                rw [if_pos rfl] at hMb
                rw [show (0:Nat) + 1 - 1 = 0 from rfl, wordAt_cons_zero,
                  show (0:Nat) + 1 = 0 + 1 from rfl, wordAt_cons_succ]
                exact hMb
              | succ M' =>
                rw [if_neg (by omega)] at hMb
                rw [show M' + 1 + 1 - 1 = M' + 1 from by omega, wordAt_cons_succ,
                  wordAt_cons_succ]
                rw [show M' + 1 - 1 = M' from by omega] at hMb
                exact hMb
      | some l =>
        rcases matchLen_some_facts pw (c :: cs) l hm with ⟨hl1, hlle, hctx0, hbound⟩
        have hrest : ((c :: cs).drop l).length ≤ f := by
          simp [List.length_drop, List.length_cons] at *
          omega
        have hw0 : wordAt ((c :: cs).drop l) 0 = wordAt (c :: cs) l := by
          rw [wordAt_drop, Nat.add_zero]
        have ihc := ih ((c :: cs).drop l) (wordAt (c :: cs) (l - 1)) false hrest
          (Or.inr ⟨rfl, Or.inr (by rw [hw0]; exact hbound)⟩)
        have htok : tokenChars = '[' :: "EMAIL_REDACTED]".toList := by decide
        constructor
        · exact noMatchAll_token b _ ihc.1
        · right
          refine ⟨0, "EMAIL_REDACTED]".toList ++
            subGo f (wordAt (c :: cs) (l - 1)) ((c :: cs).drop l), ?_, by omega, ?_⟩
          · rw [List.take_zero, List.nil_append, htok]
            simp
          · rw [if_pos rfl]
            exact hctx0

theorem noMatchAll_cons_inv (b : Bool) (c : Char) (v : List Char)
    (h : noMatchAll b (c :: v)) :
    matchLen b (c :: v) = none ∧ noMatchAll (isWordChar c) v := by
  refine ⟨h 0, fun i => ?_⟩
  have hh := h (i + 1)
  cases i with
  | zero =>
    rw [ctxAt, wordAt_cons_zero] at hh
    exact hh
  | succ j =>
    rw [ctxAt, wordAt_cons_succ] at hh
    exact hh

theorem searchGo_eq_false_of_noMatchAll (f : Nat) (v : List Char) (b : Bool)
    (hf : v.length ≤ f) (h : noMatchAll b v) :
    searchGo f b v = false := by
  induction f generalizing v b with
  | zero => cases v with
    | nil => rw [searchGo]
    | cons c cs => simp [List.length_cons] at hf
  | succ f ih =>
    cases v with
    | nil => rw [searchGo]
    | cons c cs =>
      rcases noMatchAll_cons_inv b c cs h with ⟨h0, hv⟩
      rw [searchGo, h0]
      simp only [Option.isSome_none, Bool.false_or]
      exact ih cs (isWordChar c) (by simp [List.length_cons] at hf; omega) hv

theorem noMatchAll_of_searchGo_false (f : Nat) (v : List Char) (b : Bool)
    (hf : v.length ≤ f) (h : searchGo f b v = false) :
    noMatchAll b v := by
  induction f generalizing v b with
  | zero =>
    cases v with
    | nil => exact noMatchAll_nil b
    | cons c cs => simp [List.length_cons] at hf
  | succ f ih =>
    cases v with
    | nil => exact noMatchAll_nil b
    | cons c cs =>
      rw [searchGo] at h
      rcases Bool.or_eq_false_iff.mp h with ⟨h1, h2⟩
      refine noMatchAll_cons b c cs ?_
        (ih cs (isWordChar c) (by simp [List.length_cons] at hf; omega) h2)
      cases hm : matchLen b (c :: cs) with
      | none => rfl
      | some l => rw [hm] at h1; simp at h1

theorem subGo_id_of_noMatchAll (f : Nat) (v : List Char) (b : Bool)
    (hf : v.length ≤ f) (h : noMatchAll b v) :
    subGo f b v = v := by
  induction f generalizing v b with
  | zero =>
    cases v with
    | nil => rw [subGo]
    | cons c cs => simp [List.length_cons] at hf
  | succ f ih =>
    cases v with
    | nil => rw [subGo]
    | cons c cs =>
      rcases noMatchAll_cons_inv b c cs h with ⟨h0, hv⟩
      rw [subGo, h0]
      rw [ih cs (isWordChar c) (by simp [List.length_cons] at hf; omega) hv]

/-- The output of `re.sub` has no email match at any position. -/
theorem emailSub_noMatchAll (t : List Char) : noMatchAll false (emailSub t) :=
  (subGo_noMatch t.length t false false (Nat.le_refl _) (Or.inl rfl)).1

/-- C10: the processed text returned by `SafetyPipeline.check_input` — in
both the `is_safe=true` and the `is_safe=false` outcome — contains no
substring matching the email pattern: no position of it starts a match
(`noMatchAll`), and the code's own `re.search` on it returns nothing. -/
theorem check_input_output_email_free
    (moderate : List Char → Except String Bool) (text : List Char)
    (s : Bool) (p : List Char) (meta : List (String × String))
    (h : check_input moderate text = .ok (s, p, meta)) :
    noMatchAll false p ∧ emailSearch p = false := by
  have hp : p = (if emailSearch text then emailSub text else text) := by
    cases hmod : moderate (if emailSearch text then emailSub text else text) with
    | error e =>
      rw [check_input, hmod] at h
      cases h
    | ok flagged =>
      have hck := check_input_ok moderate text flagged hmod
      rw [hck] at h
      simp only [Except.ok.injEq, Prod.mk.injEq] at h
      exact h.2.1.symm
  by_cases hs : emailSearch text = true
  · rw [hp, if_pos hs]
    refine ⟨emailSub_noMatchAll text, ?_⟩
    exact searchGo_eq_false_of_noMatchAll (emailSub text).length (emailSub text)
      false (Nat.le_refl _) (emailSub_noMatchAll text)
  · have hs' : emailSearch text = false := by
      cases hq : emailSearch text with
      | false => rfl
      | true => exact absurd hq hs
    rw [hp, if_neg hs]
    exact ⟨noMatchAll_of_searchGo_false text.length text false (Nat.le_refl _) hs',
      hs'⟩

/-- Witness for C10: the redaction of `"mail a@b.cc"` contains no email. -/
theorem check_input_output_email_free_witness :
    emailSearch "mail [EMAIL_REDACTED]".toList = false :=
  (check_input_output_email_free benignModeration "mail a@b.cc".toList
    true "mail [EMAIL_REDACTED]".toList [] rfl).2

/-- A concrete detector for the C6 witness: reports the email span of the
example text and nothing on any other text. -/
def emailDetectorOnce : List Char → List ComprehendEntity := fun t =>
  if t = "Contact me at a@b.com".toList
  then [⟨"EMAIL".toList, 1, 14, 21⟩] else []

/-- C6: redaction is idempotent.  For `AWSPIIDetector.redact_pii` run over
any detector backend, a second pass is a no-op whenever the detector finds
nothing in already-redacted text (the spec's stated condition — the
detector must not match placeholder tokens); and for the email-pattern
redaction of `check_input`, idempotence holds unconditionally:
`emailSub (emailSub u) = emailSub u` for every text, because the
replacement token never takes part in a match. -/
theorem redaction_idempotent
    (detector : List Char → List ComprehendEntity) (t : List Char)
    (h : detector (redact_pii_aws t (detector t)) = []) :
    redact_pii_aws (redact_pii_aws t (detector t))
        (detector (redact_pii_aws t (detector t))) =
      redact_pii_aws t (detector t) ∧
    ∀ u : List Char, emailSub (emailSub u) = emailSub u := by
  constructor
  · rw [h]
    rfl
  · intro u
    exact subGo_id_of_noMatchAll (emailSub u).length (emailSub u) false
      (Nat.le_refl _) (emailSub_noMatchAll u)

/-- Witness for C6: the concrete email detector and example text. -/
theorem redaction_idempotent_witness :
    redact_pii_aws
        (redact_pii_aws "Contact me at a@b.com".toList
          (emailDetectorOnce "Contact me at a@b.com".toList))
        (emailDetectorOnce
          (redact_pii_aws "Contact me at a@b.com".toList
            (emailDetectorOnce "Contact me at a@b.com".toList))) =
      redact_pii_aws "Contact me at a@b.com".toList
        (emailDetectorOnce "Contact me at a@b.com".toList) :=
  (redaction_idempotent emailDetectorOnce "Contact me at a@b.com".toList
    (by decide)).1
